import Mathlib

/-!
Verification of the Column Generation with Soft Fixing repository
(src/src/ColGenSF.py, src/src/main.py, src/src/Instance.py).

The development shallowly embeds the Master Problem class MP of ColGenSF.py
as a pure state record MPState and each method as a state-passing function.
Calls to the external LP and IP solver are modelled as oracle inputs: the
objective value and the primal or dual vectors a solve returns are passed
as explicit arguments to the function that consumes them, exactly where the
Python code reads them from the Gurobi model. Floating point values of the
Python code are embedded as rationals; the literals 10e-5 and 10e-4 of the
source denote 10 * 10 ^ (-5) and 10 * 10 ^ (-4) and are embedded as the
exact rationals 10 / 100000 and 10 / 10000. The values np.inf and -np.inf
used to initialise best_IP, Z_IP, best_lb and lb are embedded by working in
WithTop Rat for the integer bounds and WithBot Rat for the relaxation
bounds.
-/

namespace ColGenSF

/-- Problem data parsed by Instance.py: capacity W, item widths w and
demands d. The item count I of the Python object is the length of w. -/
structure Instance where
  W : ℚ
  w : List ℚ
  d : List ℚ
deriving DecidableEq

/-- Field I of Instance.py: the number of item types, len(self.w). -/
def Instance.I (ins : Instance) : Nat := ins.w.length

/-- One Gurobi linear constraint of the master model: a coefficient per
variable index, and a right hand side (all soft fixing and demand
constraints of the source have the form coeffs dot x >= rhs). -/
structure Constr where
  coeffs : List ℚ
  rhs : ℚ
deriving DecidableEq

/-- Return value of MP.knapsack: a new column, or the string End. -/
inductive KSResult where
  | col (c : List ℚ)
  | End
deriving DecidableEq

/-- Return value of MP.update_alpha and MP.update_beta: the updated
parameter, or the string End. -/
inductive AlphaResult where
  | val (a : ℚ)
  | End
deriving DecidableEq

/-- The mutable state of the MP object of ColGenSF.py, restricted to the
fields the claims are about. The Gurobi model set_cover is represented by
its ordered constraint list constrs (insertion order, as getConstrs
returns them) and the number numVars of registered variables; the
decision variables themselves live in the solver, so LP and IP values of
x are supplied as oracle arguments where the code reads x[i].X. -/
structure MPState where
  I : Nat
  W : ℚ
  w : List ℚ
  d : List ℚ
  constrs : List Constr
  pattern : List (List ℚ)
  P : Nat
  numVars : Nat
  total_column : Nat
  columns_added : Nat
  alpha : ℚ
  beta : ℚ
  Z_IP : WithTop ℚ
  best_IP : WithTop ℚ
  lb : WithBot ℚ
  best_lb : WithBot ℚ
  column_flag : Bool
  column_found : Bool
  cont : Nat
  x_IP : List ℚ
  x_rel : List ℚ
  rounded : ℤ
  sol_rel : ℚ
deriving DecidableEq

/-- MP.initial of ColGenSF.py: the initial pattern matrix p. Row i is all
zeros except position i, which holds np.floor(min(W / w[i], W)). -/
def initial (I : Nat) (W : ℚ) (w : List ℚ) : List (List ℚ) :=
  (List.range I).map fun i =>
    (List.range I).map fun j =>
      if j = i then ((⌊min (W / w.getD i 0) W⌋ : ℤ) : ℚ) else 0

/-- MP.__init__ followed by MP.build_model of ColGenSF.py: the initial
state of the master problem. build_model sets pattern to the matrix of
MP.initial, P to its length, creates one variable per item, and adds one
demand constraint per item whose coefficient on variable j is
pattern[i][j] and whose right hand side is d[i]. The remaining fields are
the defaults assigned in __init__. -/
def build_model (ins : Instance) : MPState :=
  let pat := initial ins.I ins.W ins.w
  { I := ins.I
    W := ins.W
    w := ins.w
    d := ins.d
    constrs := (List.range ins.I).map fun i =>
      { coeffs := (List.range pat.length).map fun j => (pat.getD i []).getD j 0
        rhs := ins.d.getD i 0 }
    pattern := pat
    P := pat.length
    numVars := ins.I
    total_column := ins.I
    columns_added := 0
    alpha := 9/10
    beta := 20
    Z_IP := ⊤
    best_IP := ⊤
    lb := ⊥
    best_lb := ⊥
    column_flag := false
    column_found := false
    cont := 0
    x_IP := []
    x_rel := []
    rounded := 0
    sol_rel := 0 }

/-- The threshold 1 + 10e-5 of the reduced cost test in MP.knapsack. -/
def knapsackThreshold : ℚ := 1 + 10 / 100000

/-- The threshold 0.1 + 10e-4 of the alpha floor test in MP.update_alpha. -/
def alphaFloor : ℚ := 1/10 + 10 / 10000

/-- The decision at the end of MP.knapsack: the subproblem solver returned
optimum objective objVal and variable values c; the method returns c when
objVal > 1 + 10e-5 and the string End otherwise. -/
def knapsackDecide (objVal : ℚ) (c : List ℚ) : KSResult :=
  if objVal > knapsackThreshold then KSResult.col c else KSResult.End

/-- The first n solver values read by index, xs.getD i 0 standing for
x[i].X: zeros past the end model indices the code would never read. -/
def readVals (n : Nat) (xs : List ℚ) : List ℚ :=
  (List.range n).map fun i => xs.getD i 0

/-- The masking loop shared by MP.solve_IP and the End branch of
MP.column_generation: start from np.zeros(len(x)) and copy x[i].X at
every index where x[i].X > 0. -/
def maskPos (n : Nat) (xs : List ℚ) : List ℚ :=
  (List.range n).map fun i => if xs.getD i 0 > 0 then xs.getD i 0 else 0

/-- The rounding heuristic total of the End branch of
MP.column_generation: the sum of int(np.ceil(x[i].X)) over indices with
x[i].X > 0. -/
def roundedTotal (xs : List ℚ) : ℤ :=
  ((xs.filter fun v => 0 < v).map fun v => ⌈v⌉).sum

/-- The pairwise appending loop of MP.add_column on the pattern matrix:
for i in range(len(coluna)): pattern[i].append(coluna[i]). Rows beyond
the length of coluna are untouched. -/
def appendCols : List (List ℚ) → List ℚ → List (List ℚ)
  | rows, [] => rows
  | [], _ => []
  | row :: rest, v :: vs => (row ++ [v]) :: appendCols rest vs

/-- The Column object of MP.add_column: the new variable receives
coefficient coluna[i] in demand constraint cons[i]; pairing the cons list
with coluna, each constraint gains one trailing coefficient. -/
def extendCons : List Constr → List ℚ → List Constr
  | cs, [] => cs
  | [], _ => []
  | c :: cs, v :: vs => { c with coeffs := c.coeffs ++ [v] } :: extendCons cs vs

/-- MP.add_column of ColGenSF.py: sets column_flag, registers one new
continuous variable whose coefficients in the demand constraints (the
first I constraints of the model) are the entries of coluna, appends
coluna pointwise to the pattern rows, increments columns_added and sets
total_column to len(pattern[0]). P is not touched. -/
def add_column (s : MPState) (coluna : List ℚ) : MPState :=
  let pat := appendCols s.pattern coluna
  { s with
    column_flag := true
    constrs := extendCons (s.constrs.take s.I) coluna ++ s.constrs.drop s.I
    numVars := s.numVars + 1
    pattern := pat
    columns_added := s.columns_added + 1
    total_column := (pat.getD 0 []).length }

/-- MP.solve_IP of ColGenSF.py: the integer solve returned objective obj
and primal values primal; the method stores obj in Z_IP and the
positive entries of primal in x_IP (np.zeros followed by the masking
loop). No other field changes; in particular best_IP is not touched. -/
def solve_IP (s : MPState) (obj : ℚ) (primal : List ℚ) : MPState :=
  { s with
    Z_IP := (obj : WithTop ℚ)
    x_IP := maskPos s.numVars primal }

/-- MP.update_alpha of ColGenSF.py, returning the updated state together
with the returned value. -/
def update_alpha (s : MPState) : MPState × AlphaResult :=
  if s.Z_IP < s.best_IP then
    ({ s with best_IP := s.Z_IP, alpha := 9/10 }, AlphaResult.val (9/10))
  else if s.column_flag then
    ({ s with alpha := 9/10, column_flag := false }, AlphaResult.val (9/10))
  else if s.alpha > alphaFloor then
    ({ s with alpha := s.alpha - 1/10 }, AlphaResult.val (s.alpha - 1/10))
  else
    (s, AlphaResult.End)

/-- MP.update_beta of ColGenSF.py, returning the updated state together
with the returned value. -/
def update_beta (s : MPState) : MPState × AlphaResult :=
  if s.Z_IP < s.best_IP then
    ({ s with best_IP := s.Z_IP, beta := 20 }, AlphaResult.val 20)
  else if s.beta > 2 then
    ({ s with beta := s.beta - 1 }, AlphaResult.val (s.beta - 1))
  else
    (s, AlphaResult.End)

/-- Dropping the last constraint n times: the removal loops of
remove_soft_fixing_type2 and remove_soft_fixing_type5 call
model.remove(model.getConstrs()[-1]) repeatedly. -/
def dropLastN : Nat → List Constr → List Constr
  | 0, l => l
  | n + 1, l => dropLastN n l.dropLast

/-- The constraint built by MP.soft_fixing (Type 1): coefficient 1 on each
variable with LP value above 0.5, right hand side
np.ceil(alpha times the sum of those LP values). xvals are the solver
values x[i].X. -/
def softFixingCons (alpha : ℚ) (xvals : List ℚ) : Constr :=
  { coeffs := xvals.map fun v => if v > 1/2 then (1 : ℚ) else 0
    rhs := ((⌈alpha * ((xvals.filter fun v => v > 1/2).sum)⌉ : ℤ) : ℚ) }

/-- MP.soft_fixing of ColGenSF.py: appends the single Type 1 constraint. -/
def soft_fixing (s : MPState) (xvals : List ℚ) : MPState :=
  { s with constrs := s.constrs ++ [softFixingCons s.alpha xvals] }

/-- MP.remove_soft_fixing of ColGenSF.py: removes the last constraint of
the model. -/
def remove_soft_fixing (s : MPState) : MPState :=
  { s with constrs := s.constrs.dropLast }

/-- The constraint built by MP.soft_fixing_type3: coefficient 1 on each
variable with LP value below 0.3, right hand side np.ceil of
(1 - alpha) times the sum of those LP values. -/
def softFixingType3Cons (alpha : ℚ) (xvals : List ℚ) : Constr :=
  { coeffs := xvals.map fun v => if v < 3/10 then (1 : ℚ) else 0
    rhs := ((⌈(1 - alpha) * ((xvals.filter fun v => v < 3/10).sum)⌉ : ℤ) : ℚ) }

/-- MP.soft_fixing_type3 of ColGenSF.py: appends the single Type 3
constraint. -/
def soft_fixing_type3 (s : MPState) (xvals : List ℚ) : MPState :=
  { s with constrs := s.constrs ++ [softFixingType3Cons s.alpha xvals] }

/-- The constraint of MP.soft_fixing_type2 for item i: coefficient 1 on
each variable with LP value above 0.5, right hand side
np.ceil(alpha times d[i]). -/
def softFixingType2Cons (alpha : ℚ) (xvals : List ℚ) (di : ℚ) : Constr :=
  { coeffs := xvals.map fun v => if v > 1/2 then (1 : ℚ) else 0
    rhs := ((⌈alpha * di⌉ : ℤ) : ℚ) }

/-- MP.soft_fixing_type2 of ColGenSF.py: appends one constraint per item
i in range(I). -/
def soft_fixing_type2 (s : MPState) (xvals : List ℚ) : MPState :=
  { s with constrs := s.constrs ++
      (List.range s.I).map fun i => softFixingType2Cons s.alpha xvals (s.d.getD i 0) }

/-- MP.remove_soft_fixing_type2 of ColGenSF.py: removes the last
constraint I times. -/
def remove_soft_fixing_type2 (s : MPState) : MPState :=
  { s with constrs := dropLastN s.I s.constrs }

/-- The constraint of MP.soft_fixing_type4 for item i: coefficient
pattern[i][j] on each variable j with x_IP[j] > 0.5, right hand side
np.ceil(alpha times the sum of pattern[i][j] * x_IP[j] over those j). -/
def softFixingType4Cons (s : MPState) (i : Nat) : Constr :=
  { coeffs := (List.range s.x_IP.length).map fun j =>
      if s.x_IP.getD j 0 > 1/2 then (s.pattern.getD i []).getD j 0 else 0
    rhs := ((⌈s.alpha * (((List.range s.x_IP.length).map fun j =>
      if s.x_IP.getD j 0 > 1/2 then (s.pattern.getD i []).getD j 0 * s.x_IP.getD j 0
      else 0).sum)⌉ : ℤ) : ℚ) }

/-- MP.soft_fixing_type4 of ColGenSF.py: appends one constraint per item
i in range(I). -/
def soft_fixing_type4 (s : MPState) : MPState :=
  { s with constrs := s.constrs ++ (List.range s.I).map fun i => softFixingType4Cons s i }

/-- The indices j with x_IP[j] > 0.5 that trigger MP.soft_fixing_type5. -/
def type5Triggered (s : MPState) : List Nat :=
  (List.range s.x_IP.length).filter fun j => s.x_IP.getD j 0 > 1/2

/-- The constraint of MP.soft_fixing_type5 for a triggered index j:
x[j] >= np.ceil(alpha * x_IP[j]), a unit coefficient row. -/
def softFixingType5Cons (s : MPState) (j : Nat) : Constr :=
  { coeffs := (List.range s.numVars).map fun t => if t = j then (1 : ℚ) else 0
    rhs := ((⌈s.alpha * s.x_IP.getD j 0⌉ : ℤ) : ℚ) }

/-- MP.soft_fixing_type5 of ColGenSF.py: appends one constraint per
triggered index and stores their number in cont. -/
def soft_fixing_type5 (s : MPState) : MPState :=
  { s with
    cont := (type5Triggered s).length
    constrs := s.constrs ++ (type5Triggered s).map fun j => softFixingType5Cons s j }

/-- MP.remove_soft_fixing_type5 of ColGenSF.py: removes the last
constraint cont times. -/
def remove_soft_fixing_type5 (s : MPState) : MPState :=
  { s with constrs := dropLastN s.cont s.constrs }

/-- The single aggregate constraint of MP.soft_fixing_type6: variable j
with LP value above 0.3 receives the accumulated coefficient
sum over i of pattern[i][j], and the right hand side is np.ceil of
alpha times the sum over those j and all i of pattern[i][j] * x[j].X. -/
def softFixingType6Cons (s : MPState) (xvals : List ℚ) : Constr :=
  { coeffs := (List.range s.numVars).map fun j =>
      if xvals.getD j 0 > 3/10
      then ((List.range s.I).map fun i => (s.pattern.getD i []).getD j 0).sum
      else 0
    rhs := ((⌈s.alpha * (((List.range s.numVars).map fun j =>
      if xvals.getD j 0 > 3/10
      then ((List.range s.I).map fun i =>
        (s.pattern.getD i []).getD j 0 * xvals.getD j 0).sum
      else 0).sum)⌉ : ℤ) : ℚ) }

/-- MP.soft_fixing_type6 of ColGenSF.py: appends the single aggregate
constraint. -/
def soft_fixing_type6 (s : MPState) (xvals : List ℚ) : MPState :=
  { s with constrs := s.constrs ++ [softFixingType6Cons s xvals] }

/-- The constraint of MP.soft_fixing_type7 for item i: coefficient
pattern[i][j] on each variable j with x_IP[j] < 0.2, right hand side
np.ceil((1 - alpha) times the sum of pattern[i][j] * x_IP[j] over
those j). -/
def softFixingType7Cons (s : MPState) (i : Nat) : Constr :=
  { coeffs := (List.range s.x_IP.length).map fun j =>
      if s.x_IP.getD j 0 < 1/5 then (s.pattern.getD i []).getD j 0 else 0
    rhs := ((⌈(1 - s.alpha) * (((List.range s.x_IP.length).map fun j =>
      if s.x_IP.getD j 0 < 1/5 then (s.pattern.getD i []).getD j 0 * s.x_IP.getD j 0
      else 0).sum)⌉ : ℤ) : ℚ) }

/-- MP.soft_fixing_type7 of ColGenSF.py: appends one constraint per item
i in range(I). -/
def soft_fixing_type7 (s : MPState) : MPState :=
  { s with constrs := s.constrs ++ (List.range s.I).map fun i => softFixingType7Cons s i }

/-- One iteration of the while loop of MP.column_generation. The LP solve
returned objective obj and variable values xvals, and the knapsack call
returned ks. The iteration stores obj in lb, raises best_lb when obj
exceeds it, and then either finalises (on End: stores the positive LP
values in x_rel, the rounding heuristic total in rounded and obj in
sol_rel, and leaves the loop) or adds the returned column and continues.
The returned Bool is true when the loop terminated. -/
def cg_iteration (s : MPState) (obj : ℚ) (xvals : List ℚ) (ks : KSResult) :
    MPState × Bool :=
  let s1 := { s with
    lb := (obj : WithBot ℚ)
    best_lb := if (obj : WithBot ℚ) > s.best_lb then (obj : WithBot ℚ) else s.best_lb }
  match ks with
  | KSResult.End =>
      ({ s1 with
          x_rel := maskPos s1.numVars xvals
          rounded := roundedTotal (readVals s1.numVars xvals)
          sol_rel := obj }, true)
  | KSResult.col c => (add_column s1 c, false)

/-- One iteration of the outer soft fixing loop of main.py: the strategy
specific part (soft fixing, column generation, removal) is abstracted as
the state function mutate, then solve_IP runs with oracle results obj
and primal, then update_alpha; the loop breaks exactly when update_alpha
returned the string End. The Bool is true when the loop breaks. -/
def outer_iteration (mutate : MPState → MPState) (obj : ℚ) (primal : List ℚ)
    (s : MPState) : MPState × Bool :=
  let s1 := solve_IP (mutate s) obj primal
  let p := update_alpha s1
  (p.1, decide (p.2 = AlphaResult.End))

/-- The outer soft fixing loop of main.py under selector 0: each iteration
does nothing before the integer solve (the dispatch branch is pass), so
the model never changes and the solver returns the same objective z and
primal vector p every time. Returns the number of iterations executed
when the loop breaks within the given fuel. -/
def outer_loop0 : Nat → MPState → ℚ → List ℚ → Nat → Option Nat
  | 0, _, _, _, _ => none
  | fuel + 1, s, z, p, k =>
      let r := outer_iteration id z p s
      if r.2 then some (k + 1) else outer_loop0 fuel r.1 z p (k + 1)

/-- The state changing operations of the run, each carrying the oracle
values the corresponding Python method reads from the solver. -/
inductive Op where
  | cg (obj : ℚ) (xvals : List ℚ) (ks : KSResult)
  | solveIP (obj : ℚ) (primal : List ℚ)
  | updAlpha
  | updBeta
  | addCol (coluna : List ℚ)
  | sf1 (xvals : List ℚ)
  | rm1
  | sf2 (xvals : List ℚ)
  | rm2
  | sf3 (xvals : List ℚ)
  | sf4
  | sf5
  | rm5
  | sf6 (xvals : List ℚ)
  | sf7

/-- The effect of one operation on the state. -/
def step (op : Op) (s : MPState) : MPState :=
  match op with
  | Op.cg obj xvals ks => (cg_iteration s obj xvals ks).1
  | Op.solveIP obj primal => solve_IP s obj primal
  | Op.updAlpha => (update_alpha s).1
  | Op.updBeta => (update_beta s).1
  | Op.addCol c => add_column s c
  | Op.sf1 xv => soft_fixing s xv
  | Op.rm1 => remove_soft_fixing s
  | Op.sf2 xv => soft_fixing_type2 s xv
  | Op.rm2 => remove_soft_fixing_type2 s
  | Op.sf3 xv => soft_fixing_type3 s xv
  | Op.sf4 => soft_fixing_type4 s
  | Op.sf5 => soft_fixing_type5 s
  | Op.rm5 => remove_soft_fixing_type5 s
  | Op.sf6 xv => soft_fixing_type6 s xv
  | Op.sf7 => soft_fixing_type7 s

/-- A run of the program: the operations applied in order. -/
def run (ops : List Op) (s : MPState) : MPState :=
  ops.foldl (fun t op => step op t) s

/-! ## Helper lemmas -/

/-- Popping the last constraint as many times as a block of constraints
appended at the end is long recovers the original list. -/
lemma dropLastN_append (l m : List Constr) : dropLastN m.length (l ++ m) = l := by
  induction m using List.reverseRecOn generalizing l with
  | nil => simp [dropLastN]
  | append_singleton m a ih =>
      rw [List.length_append, List.length_singleton, ← List.append_assoc]
      show dropLastN m.length ((l ++ m) ++ [a]).dropLast = l
      rw [List.dropLast_concat]
      exact ih l

/-! ## C1: soft fixing apply and remove pairs restore the constraint list -/

/-- C1: for every soft fixing type and every master problem state, the
apply operation appends its constraints at the end of the constraint
list (one constraint for Types 1, 3 and 6, I constraints for Types 2, 4
and 7, and for Type 5 as many constraints as the counter cont records),
and the matching remove operation pops exactly that block from the end,
so that the composition leaves the constraint list, and in particular
the constraint count, exactly as it was before the apply. -/
theorem sf_apply_remove_restores (s : MPState) (xvals : List ℚ) :
    (soft_fixing s xvals).constrs = s.constrs ++ [softFixingCons s.alpha xvals]
    ∧ (remove_soft_fixing (soft_fixing s xvals)).constrs = s.constrs
    ∧ (soft_fixing_type2 s xvals).constrs.length = s.constrs.length + s.I
    ∧ (remove_soft_fixing_type2 (soft_fixing_type2 s xvals)).constrs = s.constrs
    ∧ (soft_fixing_type3 s xvals).constrs
        = s.constrs ++ [softFixingType3Cons s.alpha xvals]
    ∧ (remove_soft_fixing (soft_fixing_type3 s xvals)).constrs = s.constrs
    ∧ (soft_fixing_type4 s).constrs.length = s.constrs.length + s.I
    ∧ (remove_soft_fixing_type2 (soft_fixing_type4 s)).constrs = s.constrs
    ∧ (soft_fixing_type5 s).constrs.length
        = s.constrs.length + (soft_fixing_type5 s).cont
    ∧ (remove_soft_fixing_type5 (soft_fixing_type5 s)).constrs = s.constrs
    ∧ (soft_fixing_type6 s xvals).constrs = s.constrs ++ [softFixingType6Cons s xvals]
    ∧ (remove_soft_fixing (soft_fixing_type6 s xvals)).constrs = s.constrs
    ∧ (soft_fixing_type7 s).constrs.length = s.constrs.length + s.I
    ∧ (remove_soft_fixing_type2 (soft_fixing_type7 s)).constrs = s.constrs := by
  refine ⟨rfl, ?_, ?_, ?_, rfl, ?_, ?_, ?_, ?_, ?_, rfl, ?_, ?_, ?_⟩
  · simp [remove_soft_fixing, soft_fixing]
  · simp [soft_fixing_type2]
  · show dropLastN s.I (s.constrs ++ _) = s.constrs
    have h := dropLastN_append s.constrs
      ((List.range s.I).map fun i => softFixingType2Cons s.alpha xvals (s.d.getD i 0))
    simpa using h
  · simp [remove_soft_fixing, soft_fixing_type3]
  · simp [soft_fixing_type4]
  · show dropLastN s.I (s.constrs ++ _) = s.constrs
    have h := dropLastN_append s.constrs
      ((List.range s.I).map fun i => softFixingType4Cons s i)
    simpa using h
  · simp [soft_fixing_type5]
  · show dropLastN (type5Triggered s).length (s.constrs ++ _) = s.constrs
    have h := dropLastN_append s.constrs
      ((type5Triggered s).map fun j => softFixingType5Cons s j)
    simpa using h
  · simp [remove_soft_fixing, soft_fixing_type6]
  · simp [soft_fixing_type7]
  · show dropLastN s.I (s.constrs ++ _) = s.constrs
    have h := dropLastN_append s.constrs
      ((List.range s.I).map fun i => softFixingType7Cons s i)
    simpa using h

/-! ## C2: the adaptive alpha schedule and the outer loop termination -/

/-- C2: update_alpha follows exactly the decision order of the source:
an integer objective below best_IP records it and resets alpha to 0.9;
otherwise a set column_flag resets alpha to 0.9 and clears the flag;
otherwise alpha above the floor threshold is decremented by 0.1;
otherwise the call returns the End signal. The outer loop of main.py
breaks exactly when update_alpha returns End. -/
theorem update_alpha_schedule (s : MPState) :
    (s.Z_IP < s.best_IP →
      update_alpha s
        = ({ s with best_IP := s.Z_IP, alpha := 9/10 }, AlphaResult.val (9/10)))
    ∧ (¬ s.Z_IP < s.best_IP → s.column_flag = true →
      update_alpha s
        = ({ s with alpha := 9/10, column_flag := false }, AlphaResult.val (9/10)))
    ∧ (¬ s.Z_IP < s.best_IP → s.column_flag = false → s.alpha > alphaFloor →
      update_alpha s
        = ({ s with alpha := s.alpha - 1/10 }, AlphaResult.val (s.alpha - 1/10)))
    ∧ (¬ s.Z_IP < s.best_IP → s.column_flag = false → ¬ s.alpha > alphaFloor →
      update_alpha s = (s, AlphaResult.End))
    ∧ (∀ mutate obj primal,
      (outer_iteration mutate obj primal s).2 = true
        ↔ (update_alpha (solve_IP (mutate s) obj primal)).2 = AlphaResult.End) := by
  refine ⟨?_, ?_, ?_, ?_, ?_⟩
  · intro h; simp [update_alpha, h]
  · intro h hf; simp [update_alpha, h, hf]
  · intro h hf ha; simp [update_alpha, h, hf, ha]
  · intro h hf ha; simp [update_alpha, h, hf, ha]
  · intro mutate obj primal; simp [outer_iteration]

/-! ## C3: best_lb never decreases, best_IP never increases -/

/-- No single operation decreases best_lb. -/
lemma step_best_lb_mono (op : Op) (s : MPState) : s.best_lb ≤ (step op s).best_lb := by
  cases op with
  | cg obj xvals ks =>
      have h : s.best_lb ≤
          (if (obj : WithBot ℚ) > s.best_lb then (obj : WithBot ℚ) else s.best_lb) := by
        split
        · exact le_of_lt (by assumption)
        · exact le_refl _
      cases ks <;> simpa [step, cg_iteration, add_column] using h
  | solveIP obj primal => simp [step, solve_IP]
  | updAlpha => simp only [step, update_alpha]; split_ifs <;> simp
  | updBeta => simp only [step, update_beta]; split_ifs <;> simp
  | addCol c => simp [step, add_column]
  | sf1 xv => simp [step, soft_fixing]
  | rm1 => simp [step, remove_soft_fixing]
  | sf2 xv => simp [step, soft_fixing_type2]
  | rm2 => simp [step, remove_soft_fixing_type2]
  | sf3 xv => simp [step, soft_fixing_type3]
  | sf4 => simp [step, soft_fixing_type4]
  | sf5 => simp [step, soft_fixing_type5]
  | rm5 => simp [step, remove_soft_fixing_type5]
  | sf6 xv => simp [step, soft_fixing_type6]
  | sf7 => simp [step, soft_fixing_type7]

/-- No single operation increases best_IP. -/
lemma step_best_IP_anti (op : Op) (s : MPState) : (step op s).best_IP ≤ s.best_IP := by
  cases op with
  | cg obj xvals ks => cases ks <;> simp [step, cg_iteration, add_column]
  | solveIP obj primal => simp [step, solve_IP]
  | updAlpha =>
      simp only [step, update_alpha]
      split_ifs with h1 h2 h3 <;> simp
      exact le_of_lt h1
  | updBeta =>
      simp only [step, update_beta]
      split_ifs with h1 h2 <;> simp
      exact le_of_lt h1
  | addCol c => simp [step, add_column]
  | sf1 xv => simp [step, soft_fixing]
  | rm1 => simp [step, remove_soft_fixing]
  | sf2 xv => simp [step, soft_fixing_type2]
  | rm2 => simp [step, remove_soft_fixing_type2]
  | sf3 xv => simp [step, soft_fixing_type3]
  | sf4 => simp [step, soft_fixing_type4]
  | sf5 => simp [step, soft_fixing_type5]
  | rm5 => simp [step, remove_soft_fixing_type5]
  | sf6 xv => simp [step, soft_fixing_type6]
  | sf7 => simp [step, soft_fixing_type7]

/-- C3: over every run of operations, best_lb is monotonically
non-decreasing and best_IP monotonically non-increasing; moreover each
column generation iteration replaces best_lb by the maximum of its old
value and the observed LP objective, and each schedule update replaces
best_IP by the minimum of its old value and the observed integer
objective, so the two fields are the running maximum and minimum of the
observed objectives. -/
theorem bounds_monotone_along_run (ops : List Op) (s : MPState) :
    (s.best_lb ≤ (run ops s).best_lb ∧ (run ops s).best_IP ≤ s.best_IP)
    ∧ (∀ (t : MPState) (obj : ℚ) (xvals : List ℚ) (ks : KSResult),
        ((cg_iteration t obj xvals ks).1).best_lb = max t.best_lb (obj : WithBot ℚ))
    ∧ (∀ t : MPState, ((update_alpha t).1).best_IP = min t.best_IP t.Z_IP)
    ∧ (∀ t : MPState, ((update_beta t).1).best_IP = min t.best_IP t.Z_IP) := by
  refine ⟨?_, ?_, ?_, ?_⟩
  · induction ops generalizing s with
    | nil => exact ⟨le_refl _, le_refl _⟩
    | cons op rest ih =>
        have hrun : run (op :: rest) s = run rest (step op s) := rfl
        refine ⟨?_, ?_⟩
        · exact le_trans (step_best_lb_mono op s) (hrun ▸ (ih (step op s)).1)
        · exact le_trans (hrun ▸ (ih (step op s)).2) (step_best_IP_anti op s)
  · intro t obj xvals ks
    have h : (if (obj : WithBot ℚ) > t.best_lb then (obj : WithBot ℚ) else t.best_lb)
        = max t.best_lb (obj : WithBot ℚ) := by
      split
      · exact (max_eq_right (le_of_lt (by assumption))).symm
      · exact (max_eq_left (not_lt.mp (by assumption))).symm
    cases ks <;> simpa [cg_iteration, add_column] using h
  · intro t
    simp only [update_alpha]
    split_ifs with h1 h2 h3 <;> simp
    · exact le_of_lt h1
    · exact not_lt.mp h1
    · exact not_lt.mp h1
    · exact not_lt.mp h1
  · intro t
    simp only [update_beta]
    split_ifs with h1 h2 <;> simp
    · exact le_of_lt h1
    · exact not_lt.mp h1
    · exact not_lt.mp h1

/-! ## C4: the pricing return decision -/

/-- C4: the knapsack method returns the found pattern exactly when its
objective value under the current duals exceeds 1 + 1e-4 and the End
signal otherwise, and the column generation loop treats End as normal
termination (the iteration reports the loop as finished) while a
returned column continues the loop. -/
theorem knapsack_return_characterisation (objVal : ℚ) (c : List ℚ) (s : MPState)
    (obj2 : ℚ) (xvals : List ℚ) :
    (knapsackDecide objVal c = KSResult.col c ↔ objVal > 1 + 1/10000)
    ∧ (knapsackDecide objVal c = KSResult.End ↔ ¬ objVal > 1 + 1/10000)
    ∧ (cg_iteration s obj2 xvals KSResult.End).2 = true
    ∧ ∀ c2, (cg_iteration s obj2 xvals (KSResult.col c2)).2 = false := by
  have key : knapsackThreshold = 1 + 1/10000 := by norm_num [knapsackThreshold]
  refine ⟨?_, ?_, rfl, fun c2 => rfl⟩
  · simp only [knapsackDecide, key]
    split
    case isTrue h => simpa using h
    case isFalse h => simp only [iff_false_intro h]; simp
  · simp only [knapsackDecide, key]
    split
    case isTrue h => simp only [iff_true_intro h]; simp
    case isFalse h => simpa using h

/-! ## C5: the initial single item patterns -/

/-- C5 counterexample: for capacity 10 and the single item of width 1/2,
the built pattern packs floor(min(W / w, W)) = floor(min(20, 10)) = 10
copies, while the claimed formula floor(W / w) gives 20. -/
theorem initial_formula_cex :
    initial 1 10 [1/2] = [[10]]
    ∧ ((⌊(10 : ℚ) / (1/2)⌋ : ℤ) : ℚ) = 20
    ∧ (10 : ℚ) ≠ 20 := by
  refine ⟨by norm_num [initial, List.range_succ], by norm_num, by norm_num⟩

/-- C5 amended: MP.initial builds exactly I single item patterns; pattern
i packs floor(min(W / w[i], W)) copies of item i and zero copies of every
other item. The cap at W is invisible exactly when w[i] is at least 1
(and W nonnegative), where the built count agrees with the claimed
floor(W / w[i]); build_model installs this matrix as the pattern field. -/
theorem initial_single_item_patterns (I : Nat) (W : ℚ) (w : List ℚ) :
    (initial I W w).length = I
    ∧ (∀ i, i < I → ((initial I W w).getD i []).length = I)
    ∧ (∀ i j, i < I → j < I →
        ((initial I W w).getD i []).getD j 0
          = if j = i then ((⌊min (W / w.getD i 0) W⌋ : ℤ) : ℚ) else 0)
    ∧ (∀ i, 1 ≤ w.getD i 0 → 0 ≤ W → min (W / w.getD i 0) W = W / w.getD i 0)
    ∧ (∀ ins : Instance, (build_model ins).pattern = initial ins.I ins.W ins.w) := by
  refine ⟨by simp [initial], ?_, ?_, ?_, fun ins => rfl⟩
  · intro i hi
    simp [initial, List.getD_eq_getElem?_getD, List.getElem?_map, List.getElem?_range, hi]
  · intro i j hi hj
    simp [initial, List.getD_eq_getElem?_getD, List.getElem?_map, List.getElem?_range,
      hi, hj]
  · intro i h1 h2
    exact min_eq_left (div_le_self h2 h1)

/-! ## C6: what solve_IP stores and where best_IP is updated -/

/-- Scenario A of the specification: one item of width 4 and demand 10,
capacity 10. -/
def instA : Instance := { W := 10, w := [4], d := [10] }

/-- The state after the baseline column generation on instA: the LP solve
returns objective 5 with x = [5] and the knapsack signals End at once. -/
def cgA : MPState := (cg_iteration (build_model instA) 5 [5] KSResult.End).1

/-- C6 counterexample: the baseline integer solve on instA returns
objective 5, which improves the current best_IP (infinity), yet solve_IP
leaves best_IP unchanged at infinity instead of recording 5: the baseline
solve does not initialise best_IP. -/
theorem solve_IP_best_IP_cex :
    ((5 : ℚ) : WithTop ℚ) < cgA.best_IP
    ∧ (solve_IP cgA 5 [5]).best_IP = cgA.best_IP
    ∧ (solve_IP cgA 5 [5]).best_IP ≠ ((5 : ℚ) : WithTop ℚ) := by
  refine ⟨by decide, rfl, by decide⟩

/-- C6 amended: solve_IP stores the returned objective in Z_IP and the
positive entries of the returned primal vector in x_IP, and leaves
best_IP untouched; best_IP starts at infinity in the built model and is
updated only by update_alpha, which records Z_IP exactly when it improves
best_IP. In particular the baseline integer solve performed before the
soft fixing loop leaves best_IP at infinity. -/
theorem solve_IP_stores_solution (s : MPState) (obj : ℚ) (primal : List ℚ) :
    (solve_IP s obj primal).Z_IP = (obj : WithTop ℚ)
    ∧ (solve_IP s obj primal).x_IP = maskPos s.numVars primal
    ∧ (solve_IP s obj primal).best_IP = s.best_IP
    ∧ (∀ ins : Instance, (build_model ins).best_IP = ⊤)
    ∧ (∀ ins : Instance, ∀ obj2 primal2 obj3 xv ks,
        (solve_IP ((cg_iteration (build_model ins) obj3 xv ks).1) obj2 primal2).best_IP
          = ⊤)
    ∧ (∀ t : MPState, t.Z_IP < t.best_IP → ((update_alpha t).1).best_IP = t.Z_IP)
    ∧ (∀ t : MPState, ¬ t.Z_IP < t.best_IP → ((update_alpha t).1).best_IP = t.best_IP) := by
  refine ⟨rfl, rfl, rfl, fun ins => rfl, ?_, ?_, ?_⟩
  · intro ins obj2 primal2 obj3 xv ks
    cases ks <;> rfl
  · intro t h
    simp [update_alpha, h]
  · intro t h
    simp only [update_alpha, if_neg h]
    split_ifs <;> rfl

/-! ## C9: the two numeric tolerance constants -/

/-- C9 counterexample: the reduced cost test uses the tolerance
10e-5 = 1e-4, but the alpha floor comparison uses 10e-4 = 1e-3; the two
constants differ by a factor of ten, so the same epsilon is not used in
both places. -/
theorem tolerance_constants_cex :
    knapsackThreshold - 1 = 1/10000
    ∧ alphaFloor - 1/10 = 1/1000
    ∧ knapsackThreshold - 1 ≠ alphaFloor - 1/10 := by
  norm_num [knapsackThreshold, alphaFloor]

/-- C9 amended: the reduced cost test compares the knapsack objective
against 1 + 1e-4 while the alpha floor comparison uses 0.1 + 1e-3; the
two tolerances are distinct constants, each governing its own test. -/
theorem tolerance_constants (o : ℚ) (c : List ℚ) (s : MPState) :
    knapsackThreshold = 1 + 1/10000
    ∧ alphaFloor = 1/10 + 1/1000
    ∧ knapsackThreshold - 1 ≠ alphaFloor - 1/10
    ∧ (knapsackDecide o c = KSResult.col c ↔ o > 1 + 1/10000)
    ∧ (¬ s.Z_IP < s.best_IP → s.column_flag = false →
        ((update_alpha s).2 = AlphaResult.End ↔ ¬ s.alpha > 1/10 + 1/1000)) := by
  have key : knapsackThreshold = 1 + 1/10000 := by norm_num [knapsackThreshold]
  have key2 : alphaFloor = 1/10 + 1/1000 := by norm_num [alphaFloor]
  refine ⟨key, key2, by norm_num [knapsackThreshold, alphaFloor], ?_, ?_⟩
  · simp only [knapsackDecide, key]
    split
    case isTrue h => simpa using h
    case isFalse h => simp only [iff_false_intro h]; simp
  · intro h hf
    simp only [update_alpha, if_neg h, hf, if_false, Bool.false_eq_true, ← key2]
    split
    case isTrue ha => simp [ha]
    case isFalse ha => simp [ha]

/-! ## C10: P is the row count and never changes; rows grow in lockstep -/

/-- The pairwise append loop leaves the number of pattern rows unchanged. -/
lemma appendCols_length (rows : List (List ℚ)) (c : List ℚ) :
    (appendCols rows c).length = rows.length := by
  induction rows generalizing c with
  | nil => cases c <;> rfl
  | cons row rest ih =>
      cases c with
      | nil => rfl
      | cons v vs => simp [appendCols, ih]

/-- When the column has one entry per row, row i of the appended matrix is
row i of the old matrix extended by entry i of the column. -/
lemma appendCols_getD (rows : List (List ℚ)) (c : List ℚ)
    (hc : c.length = rows.length) :
    ∀ i, i < rows.length →
      (appendCols rows c).getD i [] = rows.getD i [] ++ [c.getD i 0] := by
  induction rows generalizing c with
  | nil => intro i hi; simp at hi
  | cons row rest ih =>
      cases c with
      | nil => simp at hc
      | cons v vs =>
          intro i hi
          cases i with
          | zero => rfl
          | succ n =>
              have h := ih vs (by simpa using hc) n (by simpa using hi)
              simpa [appendCols] using h

/-- When the column has one entry per row and all rows have length t, all
rows of the appended matrix have length t + 1. -/
lemma appendCols_uniform (rows : List (List ℚ)) (c : List ℚ) (t : Nat)
    (hu : ∀ r ∈ rows, r.length = t) (hc : c.length = rows.length) :
    ∀ r ∈ appendCols rows c, r.length = t + 1 := by
  induction rows generalizing c with
  | nil =>
      cases c with
      | nil => simp [appendCols]
      | cons v vs => simp at hc
  | cons row rest ih =>
      cases c with
      | nil => simp at hc
      | cons v vs =>
          intro r hr
          rw [appendCols] at hr
          rcases List.mem_cons.mp hr with h | h
          · subst h
            simp [hu row (by simp)]
          · exact ih vs (fun u hu2 => hu u (List.mem_cons_of_mem _ hu2))
              (by simpa using hc) r h

/-- No operation of the run changes the field P. -/
lemma step_preserves_P (op : Op) (s : MPState) : (step op s).P = s.P := by
  cases op with
  | cg obj xvals ks => cases ks <;> simp [step, cg_iteration, add_column]
  | solveIP obj primal => simp [step, solve_IP]
  | updAlpha => simp only [step, update_alpha]; split_ifs <;> simp
  | updBeta => simp only [step, update_beta]; split_ifs <;> simp
  | addCol c => simp [step, add_column]
  | sf1 xv => simp [step, soft_fixing]
  | rm1 => simp [step, remove_soft_fixing]
  | sf2 xv => simp [step, soft_fixing_type2]
  | rm2 => simp [step, remove_soft_fixing_type2]
  | sf3 xv => simp [step, soft_fixing_type3]
  | sf4 => simp [step, soft_fixing_type4]
  | sf5 => simp [step, soft_fixing_type5]
  | rm5 => simp [step, remove_soft_fixing_type5]
  | sf6 xv => simp [step, soft_fixing_type6]
  | sf7 => simp [step, soft_fixing_type7]

/-- No operation of the run changes the number of pattern rows. -/
lemma step_preserves_rows (op : Op) (s : MPState) :
    (step op s).pattern.length = s.pattern.length := by
  cases op with
  | cg obj xvals ks =>
      cases ks <;> simp [step, cg_iteration, add_column, appendCols_length]
  | solveIP obj primal => simp [step, solve_IP]
  | updAlpha => simp only [step, update_alpha]; split_ifs <;> simp
  | updBeta => simp only [step, update_beta]; split_ifs <;> simp
  | addCol c => simp [step, add_column, appendCols_length]
  | sf1 xv => simp [step, soft_fixing]
  | rm1 => simp [step, remove_soft_fixing]
  | sf2 xv => simp [step, soft_fixing_type2]
  | rm2 => simp [step, remove_soft_fixing_type2]
  | sf3 xv => simp [step, soft_fixing_type3]
  | sf4 => simp [step, soft_fixing_type4]
  | sf5 => simp [step, soft_fixing_type5]
  | rm5 => simp [step, remove_soft_fixing_type5]
  | sf6 xv => simp [step, soft_fixing_type6]
  | sf7 => simp [step, soft_fixing_type7]

/-- C10: build_model sets P to the item count I and to the number of
pattern rows, no operation of the run (in particular no add_column) ever
changes P or the row count, and when the added column has one entry per
row, add_column appends exactly one entry to every row, keeping all rows
of equal length, with total_column recording that common length. -/
theorem pattern_row_count_invariant (ins : Instance) (ops : List Op) (s : MPState)
    (coluna : List ℚ) :
    (build_model ins).P = ins.I
    ∧ (build_model ins).pattern.length = ins.I
    ∧ (run ops s).P = s.P
    ∧ (run ops s).pattern.length = s.pattern.length
    ∧ (add_column s coluna).P = s.P
    ∧ (coluna.length = s.pattern.length →
        ∀ i, i < s.pattern.length →
          (add_column s coluna).pattern.getD i []
            = s.pattern.getD i [] ++ [coluna.getD i 0])
    ∧ (∀ t, (∀ r ∈ s.pattern, r.length = t) → coluna.length = s.pattern.length →
        (∀ r ∈ (add_column s coluna).pattern, r.length = t + 1)
        ∧ (0 < s.pattern.length → (add_column s coluna).total_column = t + 1)) := by
  refine ⟨by simp [build_model, initial], by simp [build_model, initial], ?_, ?_,
    by simp [add_column], ?_, ?_⟩
  · induction ops generalizing s with
    | nil => rfl
    | cons op rest ih => exact (ih (step op s)).trans (step_preserves_P op s)
  · induction ops generalizing s with
    | nil => rfl
    | cons op rest ih => exact (ih (step op s)).trans (step_preserves_rows op s)
  · intro hc i hi
    simpa [add_column] using appendCols_getD s.pattern coluna hc i hi
  · intro t hu hc
    refine ⟨?_, ?_⟩
    · intro r hr
      exact appendCols_uniform s.pattern coluna t hu hc r (by simpa [add_column] using hr)
    · intro hpos
      have h0 := appendCols_getD s.pattern coluna hc 0 hpos
      have hr0 : (s.pattern.getD 0 []).length = t := by
        have hmem : s.pattern.getD 0 [] ∈ s.pattern := by
          rw [List.getD_eq_getElem s.pattern [] hpos]
          exact List.getElem_mem hpos
        exact hu _ hmem
      show ((appendCols s.pattern coluna).getD 0 []).length = t + 1
      rw [h0]
      simpa using hr0

/-! ## C8: the rounding heuristic total against the lower bound -/

/-- Reading exactly as many solver values as the list holds returns the
list itself. -/
lemma readVals_eq_self (xs : List ℚ) : readVals xs.length xs = xs := by
  apply List.ext_getElem
  · simp [readVals]
  · intro i h1 h2
    simp only [readVals, List.getElem_map, List.getElem_range]
    exact List.getD_eq_getElem xs 0 h2

/-- For nonnegative values, the sum of ceilings of the positive entries
dominates the plain sum. -/
lemma roundedTotal_ge_sum (xs : List ℚ) (h : ∀ v ∈ xs, 0 ≤ v) :
    xs.sum ≤ ((roundedTotal xs : ℤ) : ℚ) := by
  induction xs with
  | nil => simp [roundedTotal]
  | cons v vs ih =>
      have hv := h v (by simp)
      have hvs : ∀ u ∈ vs, 0 ≤ u := fun u hu => h u (List.mem_cons_of_mem _ hu)
      by_cases hpos : 0 < v
      · have hstep : roundedTotal (v :: vs) = ⌈v⌉ + roundedTotal vs := by
          simp [roundedTotal, List.filter_cons, hpos]
        rw [List.sum_cons, hstep]
        push_cast
        have h1 : v ≤ (⌈v⌉ : ℚ) := Int.le_ceil v
        have h2 := ih hvs
        linarith
      · have hv0 : v = 0 := le_antisymm (not_lt.mp hpos) hv
        have hstep : roundedTotal (v :: vs) = roundedTotal vs := by
          simp [roundedTotal, List.filter_cons, hpos]
        rw [List.sum_cons, hstep, hv0, zero_add]
        exact ih hvs

/-- C8 amended: at a column generation termination whose final LP solve
returned one value per variable, all nonnegative and summing to the
returned objective, and whose objective is at least the incoming best_lb
(as holds when that same round already raised best_lb to this value),
the recorded best_lb equals the final objective and the recorded rounding
total is at least its ceiling. The stronger claimed bound against an
arbitrary earlier best_lb fails, because best_lb also keeps objectives of
more constrained earlier solves. -/
theorem cg_termination_rounded_bound (s : MPState) (obj : ℚ) (xvals : List ℚ)
    (hlen : xvals.length = s.numVars) (hnn : ∀ v ∈ xvals, 0 ≤ v)
    (hsum : xvals.sum = obj) (hlb : s.best_lb ≤ (obj : WithBot ℚ)) :
    ((cg_iteration s obj xvals KSResult.End).1).best_lb = (obj : WithBot ℚ)
    ∧ (obj : ℚ) ≤ (((cg_iteration s obj xvals KSResult.End).1).rounded : ℚ)
    ∧ ⌈obj⌉ ≤ ((cg_iteration s obj xvals KSResult.End).1).rounded := by
  have hbl : ((cg_iteration s obj xvals KSResult.End).1).best_lb
      = (obj : WithBot ℚ) := by
    show (if (obj : WithBot ℚ) > s.best_lb then (obj : WithBot ℚ) else s.best_lb) = _
    split
    · rfl
    · exact le_antisymm hlb (not_lt.mp (by assumption))
  have hr : ((cg_iteration s obj xvals KSResult.End).1).rounded
      = roundedTotal xvals := by
    show roundedTotal (readVals s.numVars xvals) = roundedTotal xvals
    rw [← hlen, readVals_eq_self]
  have hge : (obj : ℚ) ≤ ((roundedTotal xvals : ℤ) : ℚ) :=
    hsum ▸ roundedTotal_ge_sum xvals hnn
  refine ⟨hbl, ?_, ?_⟩
  · rw [hr]; exact hge
  · rw [hr]; exact Int.ceil_le.mpr hge

/-- C8 witness: on instA the baseline termination returns objective 5
with x = [5]; the recorded best_lb is 5 and the rounding total is at
least its ceiling. -/
theorem cg_termination_rounded_bound_witness :
    ((cg_iteration (build_model instA) 5 [5] KSResult.End).1).best_lb
      = ((5 : ℚ) : WithBot ℚ)
    ∧ ⌈(5 : ℚ)⌉ ≤ ((cg_iteration (build_model instA) 5 [5] KSResult.End).1).rounded := by
  have h := cg_termination_rounded_bound (build_model instA) 5 [5]
    rfl (by norm_num) (by norm_num) bot_le
  exact ⟨h.1, h.2.2⟩

/-- Instance for the C8 counterexample: capacity 10, widths 9 and 1,
demands 5 and 5. -/
def instC : Instance := { W := 10, w := [9, 1], d := [5, 5] }

/-- A real baseline column generation run on instC. The first LP solve of
the restricted master (patterns [1,0] and [0,10] only) has optimum 11/2
at x = [5, 1/2]; under the duals (1, 1/10) the knapsack finds the
improving pattern [1, 1] with value 11/10. After the column is added the
LP optimum is 5 at x = [0, 0, 5]; under the duals (1, 0) the knapsack
value is 1 and pricing signals End. -/
def cgC : MPState :=
  (cg_iteration ((cg_iteration (build_model instC) (11/2) [5, 1/2]
    (KSResult.col [1, 1])).1) 5 [0, 0, 5] KSResult.End).1

/-- C8 counterexample: at the second column generation termination the
recorded rounding total is 5, but best_lb still holds the first and
larger restricted master objective 11/2, whose ceiling is 6: the claimed
inequality rounded at least the ceiling of best_lb fails. -/
theorem rounded_vs_best_lb_cex :
    cgC.best_lb = ((11/2 : ℚ) : WithBot ℚ)
    ∧ cgC.rounded = 5
    ∧ ¬ (⌈(11/2 : ℚ)⌉ ≤ cgC.rounded) := by
  have h1 : cgC.best_lb = ((11/2 : ℚ) : WithBot ℚ) := by
    have c1 : (⊥ : WithBot ℚ) < ((11/2 : ℚ) : WithBot ℚ) := WithBot.bot_lt_coe _
    have c2 : ¬ (((11/2 : ℚ) : WithBot ℚ) < ((5 : ℚ) : WithBot ℚ)) := by
      rw [WithBot.coe_lt_coe]; norm_num
    simp [cgC, cg_iteration, add_column, build_model, c1, c2]
    intro h
    rw [show ((5 : WithBot ℚ)) = ((5 : ℚ) : WithBot ℚ) from rfl] at h
    exact absurd h c2
  have h2 : cgC.rounded = 5 := by
    show roundedTotal (readVals _ [0, 0, 5]) = 5
    norm_num [cg_iteration, add_column, build_model, instC, Instance.I, readVals,
      roundedTotal, List.range_succ, List.filter_cons]
  refine ⟨h1, h2, ?_⟩
  have hc : (⌈(11/2 : ℚ)⌉ : ℤ) = 6 := by rw [Int.ceil_eq_iff] ; norm_num
  rw [h2, hc]
  decide

/-! ## C7: the selector 0 outer loop -/

/-- While the integer objective stays at the recorded best and the column
flag is clear, each outer iteration only decrements alpha; from
alpha = 1/10 + n/10 the loop therefore runs n more decrement iterations
and then one final iteration that signals End. -/
lemma outer_loop0_decrements (n : Nat) :
    ∀ (fuel : Nat) (s : MPState) (z : ℚ) (p : List ℚ) (k : Nat),
      n + 1 ≤ fuel →
      s.best_IP = ((z : ℚ) : WithTop ℚ) →
      s.column_flag = false →
      s.alpha = 1/10 + (n : ℚ)/10 →
      outer_loop0 fuel s z p k = some (k + n + 1) := by
  induction n with
  | zero =>
      intro fuel s z p k hfuel hIP hflag halpha
      obtain ⟨f, rfl⟩ : ∃ f, fuel = f + 1 := ⟨fuel - 1, by omega⟩
      have ha : s.alpha = 1/10 := by rw [halpha]; norm_num
      have hc1 : ¬ (((z : ℚ) : WithTop ℚ) < s.best_IP) := by
        rw [hIP]; exact lt_irrefl _
      have hc3 : ¬ (s.alpha > alphaFloor) := by
        rw [ha, alphaFloor]; norm_num
      simp [outer_loop0, outer_iteration, update_alpha, solve_IP, hc1, hflag, hc3]
  | succ n ih =>
      intro fuel s z p k hfuel hIP hflag halpha
      obtain ⟨f, rfl⟩ : ∃ f, fuel = f + 1 := ⟨fuel - 1, by omega⟩
      have hc1 : ¬ (((z : ℚ) : WithTop ℚ) < s.best_IP) := by
        rw [hIP]; exact lt_irrefl _
      have hn1 : (1 : ℚ) ≤ ((n + 1 : ℕ) : ℚ) := by exact_mod_cast Nat.one_le_iff_ne_zero.mpr (Nat.succ_ne_zero n)
      have hc3 : s.alpha > alphaFloor := by
        rw [halpha, alphaFloor]
        push_cast
        push_cast at hn1
        nlinarith
      have hk : (k + 1) + n + 1 = k + (n + 1) + 1 := by omega
      have hupd : update_alpha (solve_IP s z p)
          = ({ solve_IP s z p with alpha := s.alpha - 1/10 },
             AlphaResult.val (s.alpha - 1/10)) := by
        simp [update_alpha, solve_IP, hc1, hflag, hc3]
      have hiter : outer_iteration id z p s
          = ({ solve_IP s z p with alpha := s.alpha - 1/10 }, false) := by
        simp [outer_iteration, hupd]
      rw [show outer_loop0 (f + 1) s z p k
          = (if (outer_iteration id z p s).2 then some (k + 1)
             else outer_loop0 f (outer_iteration id z p s).1 z p (k + 1)) from rfl,
        hiter]
      simp only [Bool.false_eq_true, if_false]
      rw [← hk]
      apply ih f _ z p (k + 1) (by omega)
      · exact hIP
      · exact hflag
      · show s.alpha - 1/10 = 1/10 + (n : ℚ)/10
        rw [halpha]
        push_cast
        ring

/-- One unfolding of the selector 0 loop. -/
lemma outer_loop0_unfold (f : Nat) (s : MPState) (z : ℚ) (p : List ℚ) (k : Nat) :
    outer_loop0 (f + 1) s z p k
      = (if (outer_iteration id z p s).2 then some (k + 1)
         else outer_loop0 f (outer_iteration id z p s).1 z p (k + 1)) := rfl

/-- C7 amended: with selector 0 the outer loop does not terminate after
one iteration. Starting from the post baseline state (best_IP still
infinite; the starting alpha is irrelevant since the first iteration
resets it) with a solver that keeps returning the same finite integer
objective, the first iteration takes the improving branch
(recording best_IP and keeping alpha at 0.9), the following eight
iterations decrement alpha from 0.9 down to 0.1, and the tenth iteration
signals End: exactly 10 iterations when the column flag is clear, and one
more (the flag reset iteration) when baseline column generation had set
the flag, for 11. -/
theorem selector0_loop_iterations (z : ℚ) (p : List ℚ) (s : MPState)
    (hIP : s.best_IP = ⊤) :
    (s.column_flag = false → ∀ fuel, 10 ≤ fuel → outer_loop0 fuel s z p 0 = some 10)
    ∧ (s.column_flag = true → ∀ fuel, 11 ≤ fuel → outer_loop0 fuel s z p 0 = some 11) := by
  have hc1 : ((z : ℚ) : WithTop ℚ) < s.best_IP := by
    rw [hIP]; exact WithTop.coe_lt_top z
  have hupd : update_alpha (solve_IP s z p)
      = ({ solve_IP s z p with best_IP := ((z : ℚ) : WithTop ℚ), alpha := 9/10 },
         AlphaResult.val (9/10)) := by
    simp [update_alpha, solve_IP, hc1]
  have hiter : outer_iteration id z p s
      = ({ solve_IP s z p with best_IP := ((z : ℚ) : WithTop ℚ), alpha := 9/10 },
         false) := by
    simp [outer_iteration, hupd]
  constructor
  · intro hflag fuel hfuel
    obtain ⟨f, rfl⟩ : ∃ f, fuel = f + 1 := ⟨fuel - 1, by omega⟩
    rw [outer_loop0_unfold, hiter]
    simp only [Bool.false_eq_true, if_false]
    have h8 := outer_loop0_decrements 8 f
      ({ solve_IP s z p with best_IP := ((z : ℚ) : WithTop ℚ), alpha := 9/10 }) z p 1
      (by omega) rfl hflag (by push_cast; norm_num)
    simpa using h8
  · intro hflag fuel hfuel
    obtain ⟨f, rfl⟩ : ∃ f, fuel = f + 1 := ⟨fuel - 1, by omega⟩
    obtain ⟨g, rfl⟩ : ∃ g, f = g + 1 := ⟨f - 1, by omega⟩
    rw [outer_loop0_unfold, hiter]
    simp only [Bool.false_eq_true, if_false]
    have hni : ¬ (((z : ℚ) : WithTop ℚ) < ((z : ℚ) : WithTop ℚ)) := lt_irrefl _
    have hupd2 : update_alpha (solve_IP
        ({ solve_IP s z p with best_IP := ((z : ℚ) : WithTop ℚ), alpha := 9/10 }) z p)
        = ({ solve_IP
              ({ solve_IP s z p with best_IP := ((z : ℚ) : WithTop ℚ), alpha := 9/10 })
              z p with alpha := 9/10, column_flag := false },
           AlphaResult.val (9/10)) := by
      simp [update_alpha, solve_IP, hni, hflag]
    have hiter2 : outer_iteration id z p
        ({ solve_IP s z p with best_IP := ((z : ℚ) : WithTop ℚ), alpha := 9/10 })
        = ({ solve_IP
              ({ solve_IP s z p with best_IP := ((z : ℚ) : WithTop ℚ), alpha := 9/10 })
              z p with alpha := 9/10, column_flag := false },
           false) := by
      simp [outer_iteration, hupd2]
    rw [outer_loop0_unfold, hiter2]
    simp only [Bool.false_eq_true, if_false]
    have h8 := outer_loop0_decrements 8 g
      ({ solve_IP
          ({ solve_IP s z p with best_IP := ((z : ℚ) : WithTop ℚ), alpha := 9/10 })
          z p with alpha := 9/10, column_flag := false }) z p 2
      (by omega) rfl rfl (by push_cast; norm_num)
    simpa using h8

/-- C7 witness: the post baseline state on instA (best_IP infinite, alpha
0.9, column flag clear after the immediate End of the baseline pricing)
runs the selector 0 loop for exactly 10 iterations. -/
theorem selector0_loop_iterations_witness :
    outer_loop0 20 (solve_IP cgA 5 [5]) 5 [5] 0 = some 10 := by
  have h := selector0_loop_iterations 5 [5] (solve_IP cgA 5 [5]) rfl
  exact h.1 rfl 20 (by norm_num)

/-- C7 counterexample: with selector 0 on instA the outer loop has not
terminated after one iteration (fuel 1 is exhausted without a break, and
the first iteration reports no break), refuting termination after
exactly one iteration. -/
theorem selector0_one_iteration_cex :
    outer_loop0 1 (solve_IP cgA 5 [5]) 5 [5] 0 = none
    ∧ (outer_iteration id 5 [5] (solve_IP cgA 5 [5])).2 = false := by
  have hc1 : ((5 : ℚ) : WithTop ℚ) < (solve_IP cgA 5 [5]).best_IP := by decide
  have hupd : (update_alpha (solve_IP (solve_IP cgA 5 [5]) 5 [5])).2
      = AlphaResult.val (9/10) := by
    rw [update_alpha, if_pos]
    exact hc1
  constructor
  · rw [outer_loop0_unfold]
    rw [show (outer_iteration id 5 [5] (solve_IP cgA 5 [5])).2
        = decide ((update_alpha (solve_IP (solve_IP cgA 5 [5]) 5 [5])).2
          = AlphaResult.End) from rfl, hupd]
    simp [outer_loop0]
  · rw [show (outer_iteration id 5 [5] (solve_IP cgA 5 [5])).2
        = decide ((update_alpha (solve_IP (solve_IP cgA 5 [5]) 5 [5])).2
          = AlphaResult.End) from rfl, hupd]
    simp

end ColGenSF
